import Mathlib

/-!
Verification of the secret-resolution engine in `src/oci_vault_resolver.py`
(repository `oci-vault-mcp-resolver`).

The Python source is shallowly embedded: pure functions become Lean
functions, stateful methods become explicit state passing, raised
exceptions become `Except` values, and wall-clock timestamps become `Int`
seconds.  Every definition mirrors a concrete function of the source; the
spec-side definitions for refinement comparisons are clearly marked.
-/

namespace OciVault

instance {ε α : Type} [DecidableEq ε] [DecidableEq α] : DecidableEq (Except ε α) := fun
  | .ok a, .ok b =>
    if h : a = b then .isTrue (by rw [h])
    else .isFalse (by intro hc; cases hc; exact h rfl)
  | .ok _, .error _ => .isFalse (by intro h; cases h)
  | .error _, .ok _ => .isFalse (by intro h; cases h)
  | .error e, .error f =>
    if h : e = f then .isTrue (by rw [h])
    else .isFalse (by intro hc; cases hc; exact h rfl)

/-! ## Circuit breaker (`CircuitBreaker`, source lines 125-225)

`time.time()` values are modelled as `Int` seconds.  The three states
mirror `CircuitBreakerState`; the constructor `opened` stands for `OPEN`
(`open` is a Lean keyword). -/

inductive CBState
  | closed
  | opened
  | halfOpen
deriving DecidableEq

structure CircuitBreaker where
  failure_threshold : Nat
  recovery_timeout : Int
  success_threshold : Nat
  failure_count : Nat
  success_count : Nat
  last_failure_time : Option Int
  state : CBState
deriving DecidableEq

/-- `CircuitBreaker.__init__`: counters zero, no failure recorded, CLOSED. -/
def CircuitBreaker.mkNew (ft : Nat) (rt : Int) (st : Nat) : CircuitBreaker :=
  ⟨ft, rt, st, 0, 0, none, .closed⟩

/-- `CircuitBreaker._should_attempt_reset` (lines 197-201). -/
def CircuitBreaker.should_attempt_reset (cb : CircuitBreaker) (now : Int) : Bool :=
  match cb.last_failure_time with
  | none => false
  | some t => cb.recovery_timeout ≤ now - t

/-- `CircuitBreaker._on_success` (lines 203-212). -/
def CircuitBreaker.on_success (cb : CircuitBreaker) : CircuitBreaker :=
  let cb := { cb with failure_count := 0 }
  if cb.state = .halfOpen then
    let cb := { cb with success_count := cb.success_count + 1 }
    if cb.success_threshold ≤ cb.success_count then
      { cb with state := .closed, success_count := 0 }
    else cb
  else cb

/-- `CircuitBreaker._on_failure` (lines 214-225). -/
def CircuitBreaker.on_failure (cb : CircuitBreaker) (now : Int) : CircuitBreaker :=
  let cb := { cb with
    failure_count := cb.failure_count + 1
    last_failure_time := some now
    success_count := 0 }
  if cb.failure_threshold ≤ cb.failure_count then
    if cb.state ≠ .opened then { cb with state := .opened } else cb
  else cb

/-- Outcome of a breaker-guarded call: the wrapped call's value, the wrapped
call's own error re-raised, or the synthetic fast-fail
`VaultResolverError("Circuit breaker is OPEN ...")`. -/
inductive CBResult (ε α : Type)
  | ok (a : α)
  | err (e : ε)
  | breakerOpen
deriving DecidableEq

/-- The wrapped call's outcome, propagated unchanged. -/
def liftOutcome : Except ε α → CBResult ε α
  | .ok a => .ok a
  | .error e => .err e

/-- `CircuitBreaker.call` (lines 165-195).  `f` is the outcome the wrapped
call would produce if invoked; the returned `Bool` records whether the
wrapped call was invoked. -/
def CircuitBreaker.call (cb : CircuitBreaker) (now : Int) (f : Except ε α) :
    CircuitBreaker × CBResult ε α × Bool :=
  if cb.state = .opened ∧ ¬ cb.should_attempt_reset now then
    (cb, .breakerOpen, false)
  else
    let cb := if cb.state = .opened then { cb with state := .halfOpen } else cb
    match f with
    | .ok a => (cb.on_success, .ok a, true)
    | .error e => (cb.on_failure now, .err e, true)

/-- Fold a sequence of timed call outcomes through the breaker. -/
def CircuitBreaker.run (cb : CircuitBreaker) (events : List (Int × Except Unit Unit)) :
    CircuitBreaker :=
  events.foldl (fun cb ev => (cb.call ev.1 ev.2).1) cb

/-! ## Theorems for claims C1 and C7 -/

/-- C1: the spec invariant says any single failure while HalfOpen
immediately transitions the breaker back to Open, even when successes in
the current HalfOpen episode already reset the failure counter.  Evaluating
the code at such a history refutes this: with `failure_threshold = 2`, two
failures open the circuit, the probe call after the recovery timeout
succeeds (HalfOpen, `failure_count := 0`), and the next failed call leaves
the state HalfOpen because `failure_count = 1 < failure_threshold`. -/
theorem c1_halfopen_failure_after_success_keeps_halfopen :
    (CircuitBreaker.run (CircuitBreaker.mkNew 2 60 2)
        [(0, .error ()), (1, .error ()), (100, .ok ())]).state = CBState.halfOpen
    ∧ (CircuitBreaker.run (CircuitBreaker.mkNew 2 60 2)
        [(0, .error ()), (1, .error ()), (100, .ok ()), (101, .error ())]).state
      = CBState.halfOpen := by
  constructor <;> rfl

/-- C7: while the breaker is Open and the recovery timeout has not elapsed
since the last failure, guarding a call fast-fails with the distinguished
breaker-open error, does not invoke the wrapped call, and leaves the
breaker untouched; in every other case (not Open, or Open with the timeout
elapsed) the wrapped call is invoked and its own outcome — success value or
original error — is propagated unchanged. -/
theorem c7_breaker_guard_contract {ε α : Type} (cb : CircuitBreaker) (now tf : Int)
    (f : Except ε α) :
    (cb.state = .opened → cb.last_failure_time = some tf →
      now - tf < cb.recovery_timeout →
      cb.call now f = (cb, .breakerOpen, false))
    ∧ (cb.state ≠ .opened → (cb.call now f).2 = (liftOutcome f, true))
    ∧ (cb.state = .opened → cb.last_failure_time = some tf →
      cb.recovery_timeout ≤ now - tf →
      (cb.call now f).2 = (liftOutcome f, true)) := by
  refine ⟨fun hs hl hlt => ?_, fun hs => ?_, fun hs hl hle => ?_⟩
  · have hr : cb.should_attempt_reset now = false := by
      simp [CircuitBreaker.should_attempt_reset, hl]
      omega
    simp [CircuitBreaker.call, hs, hr]
  · rw [CircuitBreaker.call, if_neg (by simp [hs])]
    cases f <;> simp [liftOutcome]
  · have hr : cb.should_attempt_reset now = true := by
      simp [CircuitBreaker.should_attempt_reset, hl]
      omega
    rw [CircuitBreaker.call, if_neg (by simp [hr])]
    cases f <;> simp [liftOutcome]

/-- Witness for C7 at concrete inputs: an Open breaker 10 seconds after its
last failure with a 60-second recovery timeout fast-fails, and a Closed
breaker propagates the wrapped call's error unchanged. -/
theorem c7_breaker_guard_contract_witness :
    (CircuitBreaker.call ⟨2, 60, 2, 2, 0, some 0, .opened⟩ 10
        (Except.ok 7 : Except String Nat)
      = (⟨2, 60, 2, 2, 0, some 0, .opened⟩, CBResult.breakerOpen, false))
    ∧ ((CircuitBreaker.call ⟨2, 60, 2, 0, 0, some 0, .closed⟩ 10
        (Except.error "boom" : Except String Nat)).2
      = (CBResult.err "boom", true)) := by
  refine ⟨?_, ?_⟩
  · exact (c7_breaker_guard_contract ⟨2, 60, 2, 2, 0, some 0, .opened⟩ 10 0
      (Except.ok 7)).1 rfl rfl (by decide)
  · exact (c7_breaker_guard_contract ⟨2, 60, 2, 0, 0, some 0, .closed⟩ 10 0
      (Except.error "boom")).2.1 (by decide)

/-! ## Retry executor (`retry_with_backoff`, source lines 228-279)

The wrapped call is modelled as `f : Nat → Except ε α`, giving the outcome
of each successive invocation (attempt 0 is the initial call).  `retryable`
models membership in the `retryable_exceptions` tuple: only such errors are
caught by the `except` clause; any other error propagates immediately.
Backoff delays and jitter affect timing only and carry no data the engine
observes, so they are not part of the state.  The second component of the
result counts how many times the wrapped call was invoked. -/

def retryAux (f : Nat → Except ε α) (retryable : ε → Bool) :
    Nat → Nat → Except ε α × Nat
  | fuel, attempt =>
    match f attempt with
    | .ok a => (.ok a, 1)
    | .error e =>
      if retryable e then
        match fuel with
        | 0 => (.error e, 1)
        | n + 1 =>
          let r := retryAux f retryable n (attempt + 1)
          (r.1, r.2 + 1)
      else (.error e, 1)

/-- The decorated function: start at attempt 0 with `max_retries` retries
left.  `fuel = 0` in `retryAux` corresponds exactly to the loop's
`attempt >= max_retries` break condition, since each step consumes one
unit of fuel as `attempt` increases by one. -/
def retry_with_backoff (f : Nat → Except ε α) (retryable : ε → Bool)
    (max_retries : Nat) : Except ε α × Nat :=
  retryAux f retryable max_retries 0

/-- Skipping an initial run of retryable failures only adds to the
invocation count. -/
theorem retryAux_after_failures {ε α : Type} (f : Nat → Except ε α)
    (retryable : ε → Bool) (m : Nat) :
    ∀ d j k, k - j = d → j ≤ k → k ≤ m →
    (∀ i, j ≤ i → i < k → ∃ e, f i = .error e ∧ retryable e = true) →
    retryAux f retryable (m - j) j
      = ((retryAux f retryable (m - k) k).1,
         (retryAux f retryable (m - k) k).2 + (k - j)) := by
  intro d
  induction d with
  | zero =>
    intro j k hd hjk _ _
    have : j = k := by omega
    subst this
    simp
  | succ d ih =>
    intro j k hd hjk hkm hfail
    have hjlt : j < k := by omega
    obtain ⟨e, hfe, hre⟩ := hfail j le_rfl hjlt
    have hfuel : m - j = (m - (j + 1)) + 1 := by omega
    rw [retryAux, hfe, hfuel]
    simp only [hre, if_true]
    have hrec := ih (j + 1) k (by omega) (by omega) hkm
      (fun i hi hik => hfail i (by omega) hik)
    rw [hrec]
    simp
    omega

/-- C6: with every invocation failing with a retryable error, the wrapped
call is invoked exactly `max_retries + 1` times and the last observed error
is raised unchanged; when invocation `k` succeeds after retryable failures,
its result is returned after exactly `k + 1` invocations; a non-retryable
error propagates unchanged on its first occurrence, after exactly `k + 1`
invocations. -/
theorem c6_retry_contract {ε α : Type} (f : Nat → Except ε α)
    (retryable : ε → Bool) (m : Nat) :
    ((∀ i, i ≤ m → ∃ e, f i = .error e ∧ retryable e = true) →
      retry_with_backoff f retryable m = (f m, m + 1))
    ∧ (∀ k a, k ≤ m → f k = .ok a →
        (∀ i, i < k → ∃ e, f i = .error e ∧ retryable e = true) →
        retry_with_backoff f retryable m = (.ok a, k + 1))
    ∧ (∀ k e, k ≤ m → f k = .error e → retryable e = false →
        (∀ i, i < k → ∃ e2, f i = .error e2 ∧ retryable e2 = true) →
        retry_with_backoff f retryable m = (.error e, k + 1)) := by
  refine ⟨fun hall => ?_, fun k a hkm hok hfail => ?_, fun k e hkm herr hnr hfail => ?_⟩
  · obtain ⟨e, hfe, hre⟩ := hall m le_rfl
    have h := retryAux_after_failures f retryable m m 0 m rfl (by omega) le_rfl
      (fun i _ hik => hall i (by omega))
    rw [retry_with_backoff, show m = m - 0 from rfl, h, retryAux, hfe]
    have : m - m = 0 := by omega
    rw [this]
    simp [hre, hfe]
    omega
  · have h := retryAux_after_failures f retryable m k 0 k rfl (by omega) hkm
      (fun i _ hik => hfail i hik)
    rw [retry_with_backoff, show m = m - 0 from rfl, h, retryAux, hok]
    simp
    omega
  · have h := retryAux_after_failures f retryable m k 0 k rfl (by omega) hkm
      (fun i _ hik => hfail i hik)
    rw [retry_with_backoff, show m = m - 0 from rfl, h, retryAux, herr]
    simp [hnr]
    omega

/-- Witness for C6 at concrete inputs: persistent retryable failure with
`max_retries = 2` gives 3 invocations and the final error; success at
attempt 1 gives 2 invocations and the value; an immediate non-retryable
error gives 1 invocation. -/
theorem c6_retry_contract_witness :
    (retry_with_backoff (fun _ => (Except.error 0 : Except Nat Nat))
      (fun _ => true) 2 = (Except.error 0, 3))
    ∧ (retry_with_backoff
        (fun i => if i = 0 then (Except.error 0 : Except Nat Nat) else Except.ok 42)
        (fun _ => true) 2 = (Except.ok 42, 2))
    ∧ (retry_with_backoff (fun _ => (Except.error 7 : Except Nat Nat))
        (fun e => e == 0) 2 = (Except.error 7, 1)) := by
  refine ⟨?_, ?_, ?_⟩
  · exact (c6_retry_contract (fun _ => (Except.error 0 : Except Nat Nat))
      (fun _ => true) 2).1 (fun i _ => ⟨0, rfl, rfl⟩)
  · refine (c6_retry_contract
      (fun i => if i = 0 then (Except.error 0 : Except Nat Nat) else Except.ok 42)
      (fun _ => true) 2).2.1 1 42 (by omega) rfl (fun i hi => ⟨0, ?_, rfl⟩)
    have : i = 0 := by omega
    simp [this]
  · exact (c6_retry_contract (fun _ => (Except.error 7 : Except Nat Nat))
      (fun e => e == 0) 2).2.2 0 7 (by omega) rfl (by decide)
      (fun i hi => absurd hi (by omega))

/-! ## String primitives

The Python string functions used by the source, re-implemented over
`List Char` (`String.data`) by structural recursion so that concrete runs
reduce inside the kernel.  `pySplit` is Python's `str.split(sep)` for a
one-character separator (all separators the source splits on — `/`, `?`,
`&`, `=`, and the rewriter's delimiters — are single characters). -/

def splitChar (c : Char) : List Char → List (List Char)
  | [] => [[]]
  | x :: xs =>
    if x = c then [] :: splitChar c xs
    else
      match splitChar c xs with
      | [] => [[x]]
      | l :: ls => (x :: l) :: ls

def pySplit (s : String) (c : Char) : List String :=
  (splitChar c s.data).map String.mk

def startsWithL : List Char → List Char → Bool
  | _, [] => true
  | [], _ :: _ => false
  | a :: s, b :: p => if a = b then startsWithL s p else false

/-- Python `s.startswith(pfx)`. -/
def pyStarts (s pfx : String) : Bool := startsWithL s.data pfx.data

/-- Join strings with a one-character separator (inverse of `pySplit`). -/
def joinChar (c : Char) (l : List String) : String :=
  String.mk ((l.map String.data).intersperse [c]).flatten

/-! ## Reference parsing (`parse_vault_url`, source lines 525-579)

`VAULT_URL_PATTERN = re.compile(r"^oci-vault://(.+)$")` with `re.match`:
the URL must start with `oci-vault://`, `.` does not match a newline, and
`$` also matches just before a single trailing newline.  `int(value)` is
modelled by `pyInt` (whitespace-stripped optional sign followed by digits;
Python additionally accepts digit-group underscores, which no claim
exercises). -/

def digitsToNat (l : List Char) : Nat :=
  l.foldl (fun n c => n * 10 + (c.toNat - 48)) 0

def pyInt (s : String) : Option Int :=
  let t := (s.data.dropWhile Char.isWhitespace).reverse.dropWhile Char.isWhitespace
    |>.reverse
  let sign : Int := if t.take 1 = ['-'] then -1 else 1
  let digits := if t.take 1 = ['-'] ∨ t.take 1 = ['+'] then t.drop 1 else t
  if digits ≠ [] ∧ digits.all Char.isDigit then
    some (sign * digitsToNat digits)
  else none

/-- `VAULT_URL_PATTERN.match(url)`: `some` of capture group 1 on a match. -/
def vault_url_match (url : String) : Option String :=
  if startsWithL url.data "oci-vault://".data then
    let rest := url.data.drop 12
    let body := if rest.getLast? = some (Char.ofNat 10) then rest.dropLast else rest
    if body ≠ [] ∧ body.all (fun c => c ≠ Char.ofNat 10) then some (String.mk body)
    else none
  else none

/-- `path.split("?", 1)` guarded by `"?" in path` (lines 545-546). -/
def split_query (path : String) : String × Option String :=
  match pySplit path '?' with
  | [] => (path, none)
  | [p] => (p, none)
  | p :: rest => (p, some (joinChar '?' rest))

/-- The query-parameter loop (lines 548-555): the last well-formed
`version=<int>` wins; an unparseable value logs a warning and keeps the
previous value. -/
def parse_version_params (query_string : String) : Option Int :=
  (pySplit query_string '&').foldl
    (fun ver param =>
      match pySplit param '=' with
      | [] => ver
      | [_] => ver
      | key :: rest =>
        if key = "version" then
          match pyInt (joinChar '=' rest) with
          | some n => some n
          | none => ver
        else ver)
    none

def version_of : Option String → Option Int
  | some q => parse_version_params q
  | none => none

/-- The `parts = path.split("/")` branch analysis (lines 557-579). -/
def parse_path (path : String) (version_number : Option Int) :
    Option String × Option String × Option String × Option Int :=
  match pySplit path '/' with
  | [p0] =>
    if pyStarts p0 "ocid1.vaultsecret." then (some p0, none, none, version_number)
    else (none, none, some p0, version_number)
  | [container_id, secret_name] =>
    if pyStarts container_id "ocid1.compartment." then
      (none, some container_id, some secret_name, version_number)
    else if pyStarts container_id "ocid1.vault." then
      (none, some container_id, some secret_name, version_number)
    else
      (none, some container_id, some secret_name, version_number)
  | _ => (none, none, none, none)

/-- `VaultResolver.parse_vault_url`: `(secret_ocid, compartment_id,
secret_name, version_number)` or all-`none` on no match. -/
def parse_vault_url (url : String) :
    Option String × Option String × Option String × Option Int :=
  match vault_url_match url with
  | none => (none, none, none, none)
  | some path0 =>
    parse_path (split_query path0).1 (version_of (split_query path0).2)

theorem parse_path_three_or_more (path : String) (ver : Option Int)
    (h : 3 ≤ (pySplit path '/').length) :
    parse_path path ver = (none, none, none, none) := by
  rw [parse_path]
  match hp : pySplit path '/' with
  | [] => simp
  | [p0] => rw [hp] at h; simp at h
  | [c, n] => rw [hp] at h; simp at h
  | a :: b :: c :: t => simp

/-- C8 counterexample: the claim says a path with zero segments parses to
the all-`None` tuple, never a partial result.  `"oci-vault://?version=2"`
matches the scheme, its path (after stripping the query) has zero
non-empty segments, yet parsing returns the partial tuple
`(None, None, "", 2)`. -/
theorem c8_zero_segment_partial_result :
    parse_vault_url "oci-vault://?version=2" = (none, none, some "", some 2)
    ∧ (pySplit (split_query ((vault_url_match "oci-vault://?version=2").getD "")).1
        '/').filter (fun s => s ≠ "") = [] := by
  constructor <;> decide

/-- C8 (amended): `path.split("/")` on a matched reference always has at
least one element, so a "zero segment" path surfaces as a single empty
component and yields a partial result (see the counterexample); for every
reference whose path splits into three or more components, parsing returns
the all-`none` tuple; the concrete scenarios hold:
`oci-vault://comp123/secret-name?version=2` parses to
`(none, comp123, secret-name, 2)` and the 3-segment
`oci-vault://comp123/path/extra` parses to all-`none`. -/
theorem c8_parse_contract (url : String) :
    (∀ body, vault_url_match url = some body →
      3 ≤ (pySplit (split_query body).1 '/').length →
      parse_vault_url url = (none, none, none, none))
    ∧ parse_vault_url "oci-vault://comp123/secret-name?version=2"
      = (none, some "comp123", some "secret-name", some 2)
    ∧ parse_vault_url "oci-vault://comp123/path/extra" = (none, none, none, none) := by
  refine ⟨fun body h hlen => ?_, by decide, by decide⟩
  rw [parse_vault_url, h]
  exact parse_path_three_or_more _ _ hlen

/-- Witness for C8: the universally quantified part applied to the concrete
4-component reference `oci-vault://a/b/c/d`. -/
theorem c8_parse_contract_witness :
    parse_vault_url "oci-vault://a/b/c/d" = (none, none, none, none) := by
  exact (c8_parse_contract "oci-vault://a/b/c/d").1 "a/b/c/d" (by decide) (by decide)

/-! ## Resolver state (`VaultResolver.__init__`, source lines 293-380)

The cache is one JSON file per key under `cache_dir`, named by a
deterministic sha256-prefix hash of the cache key (`get_cache_path`,
lines 581-587); the model keys the store by the cache key itself, which is
the same map composed with the deterministic file naming.  A stored file
is either unreadable (`corrupt`: `json.load` or the read raises) or a JSON
object whose `value` / `cached_at` fields may be missing.  The float
metric `total_fetch_time` is a log-only accumulator and is not modelled;
`remoteCalls` is a ghost counter of remote API invocations. -/

inductive CacheFile
  | corrupt
  | entry (value : Option String) (cached_at : Option Int)
deriving DecidableEq

structure Metrics where
  secrets_fetched : Nat
  cache_hits : Nat
  cache_misses : Nat
  stale_cache_used : Nat
  retries : Nat
  circuit_breaker_opens : Nat
deriving DecidableEq

def Metrics.zero : Metrics := ⟨0, 0, 0, 0, 0, 0⟩

structure Config where
  ttl : Int
  max_retries : Nat
  default_compartment_id : Option String
  default_vault_id : Option String

/-- Exceptions a remote OCI SDK call can raise inside `_fetch` /
`list_secrets`: a structured `oci.exceptions.ServiceError` or any other
exception (decode errors, connection errors, ...). -/
inductive FetchExc
  | serviceError (status : Nat) (msg : String)
  | otherExc (msg : String)
deriving DecidableEq

/-- `retryable_exceptions=(oci.exceptions.ServiceError,)` (line 665). -/
def isServiceError : FetchExc → Bool
  | .serviceError _ _ => true
  | .otherExc _ => false

/-- The `VaultResolverError` hierarchy raised by `fetch_secret_by_ocid`
(lines 724-746).  `breakerOpenErr` is the breaker's synthetic
`VaultResolverError("Circuit breaker is OPEN ...")`; only the breaker
raises a message containing that marker in this code path. -/
inductive VaultErr
  | secretNotFound (sid : String)
  | permissionDenied (sid : String)
  | authentication (msg : String)
  | breakerOpenErr
  | generic (msg : String)
deriving DecidableEq

/-- The remote OCI API: `get_secret_bundle` outcomes are indexed by the
retry attempt number (each invocation may behave differently);
`list_secrets` returns `(id, secret_name)` summaries. -/
structure Env where
  get_secret_bundle : String → Option Int → Nat → Except FetchExc String
  list_secrets : String → Except FetchExc (List (String × String))

structure RState where
  now : Int
  store : String → Option CacheFile
  metrics : Metrics
  breaker : Option CircuitBreaker
  remoteCalls : Nat

/-- Python truthiness of an optional string (`None` and `""` are falsy). -/
def truthy : Option String → Bool
  | none => false
  | some s => if s = "" then false else true

/-- `get_cached_secret` (lines 589-625): `cache_misses` counts only the
file-not-found case; a fresh hit counts `cache_hits`; corrupt files and
empty/missing `value` fields read back as absent. -/
def get_cached_secret (cfg : Config) (st : RState) (cache_key : String) :
    Option (String × Bool) × RState :=
  match st.store cache_key with
  | none =>
    (none, { st with metrics :=
      { st.metrics with cache_misses := st.metrics.cache_misses + 1 } })
  | some .corrupt => (none, st)
  | some (.entry value cached_at) =>
    if truthy value = false then (none, st)
    else
      let secret_value := value.getD ""
      let age := st.now - cached_at.getD 0
      let is_stale := cfg.ttl < age
      if is_stale then (some (secret_value, true), st)
      else
        (some (secret_value, false), { st with metrics :=
          { st.metrics with cache_hits := st.metrics.cache_hits + 1 } })

/-- `cache_secret` (lines 627-642).  The model's write succeeds; in the
source a write failure is logged and swallowed, and every cache claim
stipulates a successful write. -/
def cache_secret (st : RState) (cache_key secret_value : String) : RState :=
  { st with store := fun k =>
      if k = cache_key then some (.entry (some secret_value) (some st.now))
      else st.store k }

def lookupByName (secret_name : String) : List (String × String) → Option String
  | [] => none
  | (sid, n) :: rest => if n = secret_name then some sid else lookupByName secret_name rest

/-- `find_secret_by_name` (lines 753-779): one un-retried, un-guarded
`list_secrets` call; service errors and any other exception are absorbed
into `None`. -/
def find_secret_by_name (env : Env) (st : RState)
    (compartment_id secret_name : String) : Option String × RState :=
  let st := { st with remoteCalls := st.remoteCalls + 1 }
  match env.list_secrets compartment_id with
  | .ok secrets => (lookupByName secret_name secrets, st)
  | .error _ => (none, st)

/-- The `except` chain of `fetch_secret_by_ocid` (lines 724-751): a
`ServiceError` escaping the retry layer is mapped to a structured
`VaultResolverError`; any other exception is logged and swallowed into a
`None` return. -/
def classifyFetchErr (secret_ocid : String) : FetchExc → Except VaultErr (Option String)
  | .serviceError 404 _ => .error (.secretNotFound secret_ocid)
  | .serviceError 401 _ =>
    .error (.authentication "Authentication failed. Check OCI credentials.")
  | .serviceError 403 _ => .error (.permissionDenied secret_ocid)
  | .serviceError _ msg => .error (.generic ("OCI API error: " ++ msg))
  | .otherExc _ => .ok none

/-- `fetch_secret_by_ocid` with `_fetch_secret_with_retry` (lines
644-751): the retried remote call, wrapped by the circuit breaker when one
is enabled.  `Except.ok (some v)` is a decoded value, `Except.ok none` the
`except Exception: return None` path, `Except.error` a raised
`VaultResolverError` subclass.  (The retries-metric bookkeeping at lines
679-685 reads and writes back an unchanged counter and is a no-op.)
`fetch_guarded` is the `if self.circuit_breaker:` branch (lines 708-714):
the retried call runs under `circuit_breaker.call`. -/
def fetch_guarded (env : Env) (cfg : Config) (st : RState) (cb : CircuitBreaker)
    (secret_ocid : String) (version_number : Option Int) :
    Except VaultErr (Option String) × RState :=
  let retried := retry_with_backoff (env.get_secret_bundle secret_ocid version_number)
      isServiceError cfg.max_retries
  let r := cb.call st.now retried.1
  let st := { st with
    breaker := some r.1
    remoteCalls := st.remoteCalls + (if r.2.2 then retried.2 else 0) }
  match r.2.1 with
  | .breakerOpen =>
    (.error .breakerOpenErr, { st with metrics := { st.metrics with
      circuit_breaker_opens := st.metrics.circuit_breaker_opens + 1 } })
  | .ok v =>
    (.ok (some v), { st with metrics := { st.metrics with
      secrets_fetched := st.metrics.secrets_fetched + 1 } })
  | .err e => (classifyFetchErr secret_ocid e, st)

/-- The breaker-disabled branch of `fetch_secret_by_ocid` (line 716). -/
def fetch_unguarded (env : Env) (cfg : Config) (st : RState)
    (secret_ocid : String) (version_number : Option Int) :
    Except VaultErr (Option String) × RState :=
  let retried := retry_with_backoff (env.get_secret_bundle secret_ocid version_number)
      isServiceError cfg.max_retries
  let st := { st with remoteCalls := st.remoteCalls + retried.2 }
  match retried.1 with
  | .ok v =>
    (.ok (some v), { st with metrics := { st.metrics with
      secrets_fetched := st.metrics.secrets_fetched + 1 } })
  | .error e => (classifyFetchErr secret_ocid e, st)

def fetch_secret_by_ocid (env : Env) (cfg : Config) (st : RState)
    (secret_ocid : String) (version_number : Option Int) :
    Except VaultErr (Option String) × RState :=
  match st.breaker with
  | some cb => fetch_guarded env cfg st cb secret_ocid version_number
  | none => fetch_unguarded env cfg st secret_ocid version_number

/-- `_try_stale_cache_fallback` (lines 781-800): a present cached tuple is
returned (with `stale_cache_used` incremented and a warning logged);
otherwise `None`. -/
def try_stale_cache_fallback (st : RState) (cached : Option (String × Bool)) :
    Option String × RState :=
  match cached with
  | some (value, _) =>
    (some value, { st with metrics := { st.metrics with
      stale_cache_used := st.metrics.stale_cache_used + 1 } })
  | none => (none, st)

/-- The fetch-and-cache tail of `resolve_secret` (lines 840-858): the two
`except` arms (structured errors, then the `VaultResolverError` base
class) both fall back to the stale cache; an empty fetched value is falsy
for `if secret_value:` and also falls back. -/
def fetch_and_cache (env : Env) (cfg : Config) (st : RState)
    (cache_key : String) (cached : Option (String × Bool))
    (secret_ocid : String) (version_number : Option Int) :
    Except VaultErr (Option String) × RState :=
  match fetch_secret_by_ocid env cfg st secret_ocid version_number with
  | (.ok (some v), st) =>
    if v = "" then
      let r := try_stale_cache_fallback st cached
      (.ok r.1, r.2)
    else (.ok (some v), cache_secret st cache_key v)
  | (.ok none, st) =>
    let r := try_stale_cache_fallback st cached
    (.ok r.1, r.2)
  | (.error (.secretNotFound _), st) =>
    let r := try_stale_cache_fallback st cached
    (.ok r.1, r.2)
  | (.error (.permissionDenied _), st) =>
    let r := try_stale_cache_fallback st cached
    (.ok r.1, r.2)
  | (.error (.authentication _), st) =>
    let r := try_stale_cache_fallback st cached
    (.ok r.1, r.2)
  | (.error .breakerOpenErr, st) =>
    let r := try_stale_cache_fallback st cached
    (.ok r.1, r.2)
  | (.error (.generic _), st) =>
    let r := try_stale_cache_fallback st cached
    (.ok r.1, r.2)

/-- `resolve_secret` (lines 802-858): cache first (keyed by the raw URL),
then parse, then name resolution if needed, then the guarded fetch.
`.ok` is a normal Python return (`some value` or `None`); an `.error`
would be an exception escaping to the caller. -/
def resolve_secret (env : Env) (cfg : Config) (st : RState) (vault_url : String) :
    Except VaultErr (Option String) × RState :=
  let cache_key := vault_url
  let c := get_cached_secret cfg st cache_key
  let cached := c.1
  let st := c.2
  match cached with
  | some (value, false) => (.ok (some value), st)
  | _ =>
    let p := parse_vault_url vault_url
    let secret_ocid0 := p.1
    let compartment_id := p.2.1
    let secret_name := p.2.2.1
    let version_number := p.2.2.2
    if truthy secret_ocid0 = false ∧ truthy secret_name = false then (.ok none, st)
    else if truthy secret_ocid0 = false then
      if truthy compartment_id = false then (.ok none, st)
      else
        let f := find_secret_by_name env st (compartment_id.getD "")
          (secret_name.getD "")
        let st := f.2
        if truthy f.1 = false then
          let r := try_stale_cache_fallback st cached
          (.ok r.1, r.2)
        else
          fetch_and_cache env cfg st cache_key cached (f.1.getD "") version_number
    else
      fetch_and_cache env cfg st cache_key cached (secret_ocid0.getD "") version_number

/-- `fetch_secrets_parallel` (lines 982-1009): fan out `resolve_secret`
per URL, fan in `dict(results)` as an association list; an exception
raised by any task would propagate out of `asyncio.gather` and escape the
batch.  The source schedules the synchronous `resolve_secret` calls on the
event loop's executor over the shared resolver; the model threads the
shared state through the calls. -/
def fetch_secrets_parallel (env : Env) (cfg : Config) (st : RState) :
    List String → Except VaultErr (List (String × Option String)) × RState
  | [] => (.ok [], st)
  | url :: rest =>
    match resolve_secret env cfg st url with
    | (.ok v, st) =>
      match fetch_secrets_parallel env cfg st rest with
      | (.ok tail, st) => (.ok ((url, v) :: tail), st)
      | (.error e, st) => (.error e, st)
    | (.error e, st) => (.error e, st)

/-! ## Theorems for the cache claims C9 and C10 -/

/-- C9 counterexample: the claim quantifies the write/read round trip over
all string values including the empty string, but caching `""` and reading
it back yields absent (`if not secret_value: return None`), not
`("", false)`. -/
theorem c9_empty_value_reads_absent :
    (get_cached_secret ⟨3600, 3, none, none⟩
      (cache_secret ⟨100, fun _ => none, Metrics.zero, none, 0⟩ "oci-vault://k" "")
      "oci-vault://k").1 = none := by decide

/-- C9 (amended): for every non-empty value, writing it to the cache and
reading it back within TTL returns the same value with `is_stale = false`;
the empty string is excluded because the cache contract reads a stored
empty value field back as absent. -/
theorem c9_cache_roundtrip (cfg : Config) (st : RState) (key v : String) (tr : Int)
    (hv : v ≠ "") (httl : tr - st.now ≤ cfg.ttl) :
    (get_cached_secret cfg { cache_secret st key v with now := tr } key).1
      = some (v, false) := by
  have hns : ¬ (cfg.ttl < tr - st.now) := by omega
  simp [get_cached_secret, cache_secret, truthy, hv, hns]

/-- Witness for C9: value `"abc"` cached at time 100 and read back at time
130 with TTL 3600 returns `("abc", false)`. -/
theorem c9_cache_roundtrip_witness :
    (get_cached_secret ⟨3600, 3, none, none⟩
      { cache_secret ⟨100, fun _ => none, Metrics.zero, none, 0⟩ "oci-vault://k" "abc" with
        now := 130 } "oci-vault://k").1 = some ("abc", false) := by
  exact c9_cache_roundtrip ⟨3600, 3, none, none⟩
    ⟨100, fun _ => none, Metrics.zero, none, 0⟩ "oci-vault://k" "abc" 130
    (by decide) (by decide)

/-- C10: `resolve_secret` consults the cache keyed by the raw URL string
before parsing: a fresh non-empty cached entry under key `u` is returned
for any string `u`, including strings the parser would reject, and the
resulting state differs from the input state only in the `cache_hits`
metric — in particular the store, the breaker and the remote-call counter
are untouched (no remote call is made; parsing is a pure function and
is never reached). -/
theorem c10_cache_consulted_before_parse (env : Env) (cfg : Config) (st : RState)
    (u v : String) (t : Int)
    (hstore : st.store u = some (.entry (some v) (some t)))
    (hv : v ≠ "") (hfresh : st.now - t ≤ cfg.ttl) :
    resolve_secret env cfg st u
      = (.ok (some v), { st with metrics :=
          { st.metrics with cache_hits := st.metrics.cache_hits + 1 } }) := by
  have hstale : ¬ cfg.ttl < st.now - t := by omega
  simp only [resolve_secret, get_cached_secret, hstore]
  simp [truthy, hv, hstale]

/-- Witness for C10: the unparseable string `"not a vault url"` with a
fresh cached entry resolves to the cached value without a remote call. -/
theorem c10_cache_consulted_before_parse_witness :
    resolve_secret
      ⟨fun _ _ _ => .error (.otherExc "unreachable"), fun _ => .error (.otherExc "x")⟩
      ⟨3600, 3, none, none⟩
      ⟨1000, fun k => if k = "not a vault url" then
          some (.entry (some "cached!") (some 900)) else none,
        Metrics.zero, some (CircuitBreaker.mkNew 5 60 2), 0⟩
      "not a vault url"
      = (.ok (some "cached!"),
        { now := 1000
          store := fun k => if k = "not a vault url" then
            some (.entry (some "cached!") (some 900)) else none
          metrics := { Metrics.zero with cache_hits := 1 }
          breaker := some (CircuitBreaker.mkNew 5 60 2)
          remoteCalls := 0 }) := by
  have h := c10_cache_consulted_before_parse
    ⟨fun _ _ _ => .error (.otherExc "unreachable"), fun _ => .error (.otherExc "x")⟩
    ⟨3600, 3, none, none⟩
    ⟨1000, fun k => if k = "not a vault url" then
        some (.entry (some "cached!") (some 900)) else none,
      Metrics.zero, some (CircuitBreaker.mkNew 5 60 2), 0⟩
    "not a vault url" "cached!" 900 (by decide) (by decide) (by decide)
  simpa using h

/-! ## Theorems for the resolution claims C2, C4 and C5 -/

/-- Environment for the C2 run: the default compartment holds an active
secret named `my-secret`, and every remote operation would succeed. -/
def c2Env : Env :=
  { get_secret_bundle := fun _ _ _ => .ok "resolved-value"
    list_secrets := fun c =>
      if c = "ocid1.compartment.oc1..testcomp" then
        .ok [("ocid1.vaultsecret.oc1..found", "my-secret")]
      else .ok [] }

/-- Resolver configuration with a default compartment supplied
(`default_compartment_id`, `__init__` lines 304 and 326). -/
def c2Cfg : Config :=
  { ttl := 3600
    max_retries := 3
    default_compartment_id := some "ocid1.compartment.oc1..testcomp"
    default_vault_id := none }

/-- A fresh resolver state: empty cache, breaker enabled with the default
thresholds, zero metrics. -/
def freshState : RState :=
  { now := 1000, store := fun _ => none, metrics := Metrics.zero
    breaker := some (CircuitBreaker.mkNew 5 60 2), remoteCalls := 0 }

/-- C2: resolving the unqualified named reference `oci-vault://my-secret`
on a resolver constructed with a default compartment that does contain
that secret nevertheless fails (returns Python `None` after logging
`"No compartment specified"`), without a single remote call:
`resolve_secret` never consults `default_compartment_id`. -/
theorem c2_default_compartment_never_used :
    (resolve_secret c2Env c2Cfg freshState "oci-vault://my-secret").1 = .ok none
    ∧ (resolve_secret c2Env c2Cfg freshState "oci-vault://my-secret").2.remoteCalls = 0
    ∧ c2Cfg.default_compartment_id = some "ocid1.compartment.oc1..testcomp" := by
  refine ⟨by decide, by decide, by decide⟩

/-- A failed fetch outcome of `fetch_secret_by_ocid`: a raised
`VaultResolverError` (any subclass, including the breaker-open rejection)
or the swallowed-exception `None` return. -/
def isFailedFetch : Except VaultErr (Option String) → Bool
  | .ok (some _) => false
  | .ok none => true
  | .error _ => true

/-- A cache read changes at most the miss/hit metrics: the stale-fallback
counter, the store, the breaker and the clock are untouched. -/
theorem get_cached_preserves (cfg : Config) (st : RState) (k : String) :
    (get_cached_secret cfg st k).2.metrics.stale_cache_used
        = st.metrics.stale_cache_used
    ∧ (get_cached_secret cfg st k).2.store = st.store
    ∧ (get_cached_secret cfg st k).2.breaker = st.breaker
    ∧ (get_cached_secret cfg st k).2.now = st.now := by
  simp only [get_cached_secret]
  refine ⟨?_, ?_, ?_, ?_⟩ <;> (repeat' split) <;> rfl

/-- The remote fetch never touches the stale-fallback counter. -/
theorem fetch_preserves_stale (env : Env) (cfg : Config) (st : RState)
    (ocid : String) (ver : Option Int) :
    (fetch_secret_by_ocid env cfg st ocid ver).2.metrics.stale_cache_used
      = st.metrics.stale_cache_used := by
  simp only [fetch_secret_by_ocid]
  cases hb : st.breaker with
  | none =>
    simp only [fetch_unguarded]
    cases hr : (retry_with_backoff (env.get_secret_bundle ocid ver)
      isServiceError cfg.max_retries).1 <;> rfl
  | some cb =>
    simp only [fetch_guarded]
    cases hc : (cb.call st.now (retry_with_backoff (env.get_secret_bundle ocid ver)
      isServiceError cfg.max_retries).1).2.1 <;> rfl

/-- A failed fetch with a cached tuple available falls back to the cached
value and bumps the stale-fallback counter once. -/
theorem fetch_and_cache_failed_some (env : Env) (cfg : Config) (st : RState)
    (key v : String) (b : Bool) (ocid : String) (ver : Option Int)
    (hf : isFailedFetch ((fetch_secret_by_ocid env cfg st ocid ver).1) = true) :
    fetch_and_cache env cfg st key (some (v, b)) ocid ver
      = (.ok (some v),
        { (fetch_secret_by_ocid env cfg st ocid ver).2 with metrics :=
          { (fetch_secret_by_ocid env cfg st ocid ver).2.metrics with
            stale_cache_used :=
              (fetch_secret_by_ocid env cfg st ocid ver).2.metrics.stale_cache_used
                + 1 } }) := by
  simp only [fetch_and_cache]
  generalize hfr : fetch_secret_by_ocid env cfg st ocid ver = fr at hf ⊢
  obtain ⟨r, st2⟩ := fr
  cases r with
  | ok o =>
    cases o with
    | some s => simp [isFailedFetch] at hf
    | none => simp [try_stale_cache_fallback]
  | error e => cases e <;> simp [try_stale_cache_fallback]

/-- A failed fetch with no cached tuple resolves to Python `None`. -/
theorem fetch_and_cache_failed_none (env : Env) (cfg : Config) (st : RState)
    (key : String) (ocid : String) (ver : Option Int)
    (hf : isFailedFetch ((fetch_secret_by_ocid env cfg st ocid ver).1) = true) :
    fetch_and_cache env cfg st key none ocid ver
      = (.ok none, (fetch_secret_by_ocid env cfg st ocid ver).2) := by
  simp only [fetch_and_cache]
  generalize hfr : fetch_secret_by_ocid env cfg st ocid ver = fr at hf ⊢
  obtain ⟨r, st2⟩ := fr
  cases r with
  | ok o =>
    cases o with
    | some s => simp [isFailedFetch] at hf
    | none => simp [try_stale_cache_fallback]
  | error e => cases e <;> simp [try_stale_cache_fallback]

/-- C5: for a direct reference whose remote fetch fails for any reason
(after exhausted retries, or breaker-open rejection, or a swallowed
exception): if the cache holds a stale value for the URL,
`resolve_secret` returns that stale value and increments
`stale_cache_used` by exactly one (with a logged warning in the source);
if the cache holds nothing, the failure propagates as a failed resolution
(Python `None`) and `stale_cache_used` is unchanged. -/
theorem c5_stale_fallback_contract (env : Env) (cfg : Config) (st : RState)
    (url ocid : String) (c n : Option String) (ver : Option Int)
    (hparse : parse_vault_url url = (some ocid, c, n, ver))
    (hocid : truthy (some ocid) = true)
    (hfetch : isFailedFetch
      ((fetch_secret_by_ocid env cfg (get_cached_secret cfg st url).2 ocid ver).1) = true) :
    (∀ v, (get_cached_secret cfg st url).1 = some (v, true) →
      ∃ st3, resolve_secret env cfg st url = (.ok (some v), st3)
        ∧ st3.metrics.stale_cache_used = st.metrics.stale_cache_used + 1)
    ∧ ((get_cached_secret cfg st url).1 = none →
      ∃ st3, resolve_secret env cfg st url = (.ok none, st3)
        ∧ st3.metrics.stale_cache_used = st.metrics.stale_cache_used) := by
  constructor
  · intro v hcv
    have hre : resolve_secret env cfg st url
        = fetch_and_cache env cfg (get_cached_secret cfg st url).2 url
            (some (v, true)) ocid ver := by
      simp only [resolve_secret, hcv, hparse, hocid]
      simp
    rw [hre, fetch_and_cache_failed_some env cfg _ url v true ocid ver hfetch]
    refine ⟨_, rfl, ?_⟩
    simp only [fetch_preserves_stale, (get_cached_preserves cfg st url).1]
  · intro hcv
    have hre : resolve_secret env cfg st url
        = fetch_and_cache env cfg (get_cached_secret cfg st url).2 url
            none ocid ver := by
      simp only [resolve_secret, hcv, hparse, hocid]
      simp
    rw [hre, fetch_and_cache_failed_none env cfg _ url ocid ver hfetch]
    refine ⟨_, rfl, ?_⟩
    simp only [fetch_preserves_stale, (get_cached_preserves cfg st url).1]

/-- Environment for the C5 witness: the remote fetch always fails with a
retryable 500-class service error. -/
def c5Env : Env :=
  { get_secret_bundle := fun _ _ _ => .error (.serviceError 500 "InternalError")
    list_secrets := fun _ => .ok [] }

/-- State for the C5 witness: the reference was cached two hours ago
(stale under TTL 3600). -/
def c5StaleState : RState :=
  { now := 7200
    store := fun k => if k = "oci-vault://ocid1.vaultsecret.x" then
        some (.entry (some "abc") (some 0)) else none
    metrics := Metrics.zero
    breaker := some (CircuitBreaker.mkNew 5 60 2)
    remoteCalls := 0 }

/-- Witness for C5: with the entry cached at `now - 7200` and TTL 3600,
the failing fetch returns the stale `"abc"` and `stale_cache_used` becomes
1; with an empty cache the same failing fetch resolves to `None`. -/
theorem c5_stale_fallback_contract_witness :
    ((resolve_secret c5Env ⟨3600, 3, none, none⟩ c5StaleState
        "oci-vault://ocid1.vaultsecret.x").1 = .ok (some "abc")
      ∧ (resolve_secret c5Env ⟨3600, 3, none, none⟩ c5StaleState
          "oci-vault://ocid1.vaultsecret.x").2.metrics.stale_cache_used = 1)
    ∧ (resolve_secret c5Env ⟨3600, 3, none, none⟩ freshState
        "oci-vault://ocid1.vaultsecret.x").1 = .ok none := by
  refine ⟨?_, ?_⟩
  · obtain ⟨st3, heq, hm⟩ := (c5_stale_fallback_contract c5Env ⟨3600, 3, none, none⟩
      c5StaleState "oci-vault://ocid1.vaultsecret.x" "ocid1.vaultsecret.x"
      none none none (by decide) (by decide) (by decide)).1 "abc" (by decide)
    rw [heq]
    exact ⟨rfl, by simpa using hm⟩
  · obtain ⟨st3, heq, hm⟩ := (c5_stale_fallback_contract c5Env ⟨3600, 3, none, none⟩
      freshState "oci-vault://ocid1.vaultsecret.x" "ocid1.vaultsecret.x"
      none none none (by decide) (by decide) (by decide)).2 (by decide)
    rw [heq]

/-- Environment for the C4 batch scenario: four references succeed and one
fails permanently with a 404 on every attempt; nothing is cached. -/
def c4Env : Env :=
  { get_secret_bundle := fun ocid _ _ =>
      if ocid = "ocid1.vaultsecret.bad" then
        .error (.serviceError 404 "NotAuthorizedOrNotFound")
      else if ocid = "ocid1.vaultsecret.a" then .ok "value-a"
      else if ocid = "ocid1.vaultsecret.b" then .ok "value-b"
      else if ocid = "ocid1.vaultsecret.c" then .ok "value-c"
      else .ok "value-d"
    list_secrets := fun _ => .ok [] }

/-- C4: for every environment (any combination of not-found,
unauthenticated, unauthorized, transient or other remote outcomes,
breaker-open rejections, malformed URLs), `resolve_secret` always returns
normally — never an escaping exception — so each reference yields a
resolved value or Python `None`; consequently a batch of 5 distinct
references of which 1 fails permanently with no cached value yields 4
resolved entries and 1 absent entry, with no exception escaping the batch
call. -/
theorem c4_resolution_absorbs_failures :
    (∀ (env : Env) (cfg : Config) (st : RState) (url : String),
      ∃ r st2, resolve_secret env cfg st url = (.ok r, st2))
    ∧ (fetch_secrets_parallel c4Env ⟨3600, 3, none, none⟩ freshState
        ["oci-vault://ocid1.vaultsecret.a", "oci-vault://ocid1.vaultsecret.b",
         "oci-vault://ocid1.vaultsecret.bad", "oci-vault://ocid1.vaultsecret.c",
         "oci-vault://ocid1.vaultsecret.d"]).1
      = .ok [("oci-vault://ocid1.vaultsecret.a", some "value-a"),
             ("oci-vault://ocid1.vaultsecret.b", some "value-b"),
             ("oci-vault://ocid1.vaultsecret.bad", none),
             ("oci-vault://ocid1.vaultsecret.c", some "value-c"),
             ("oci-vault://ocid1.vaultsecret.d", some "value-d")] := by
  constructor
  · intro env cfg st url
    simp only [resolve_secret, fetch_and_cache]
    repeat' split <;> first | exact ⟨_, _, rfl⟩ | skip
  · decide

/-! ## Documents, locator and rewriter (source lines 909-980, 1044-1052)

A Python document is a tree of dicts, lists and scalars.  Non-string
scalars (numbers, booleans, null) are never matched or rewritten and are
collapsed into `other`.  Dict keys are strings in any YAML/JSON input, but
`set_nested_value` can create integer keys (`current[int(part)] = value`),
so keys carry both shapes. -/

inductive PyKey
  | str (s : String)
  | int (n : Nat)
deriving DecidableEq

inductive PyVal
  | dict (entries : List (PyKey × PyVal))
  | arr (items : List PyVal)
  | str (s : String)
  | other

/-- Python `f"{key}"`. -/
def keyStr : PyKey → String
  | .str s => s
  | .int n => toString n

/-- Decimal digit character for `d < 10`. -/
def digitCh (d : Nat) : Char := Char.ofNat (48 + d)

def natDigitsAux : Nat → Nat → List Char
  | 0, _ => []
  | fuel + 1, n =>
    if n < 10 then [digitCh n]
    else natDigitsAux fuel (n / 10) ++ [digitCh (n % 10)]

/-- Python `f"{idx}"` for a non-negative integer: its decimal digits. -/
def natRepr (n : Nat) : String := String.mk (natDigitsAux (n + 1) n)

/-- Python `part.isdigit()` for ASCII strings, where it is exactly
"non-empty and all characters in 0-9".  Python's `str.isdigit` is
Unicode-aware: `"٣".isdigit()` is true with `int("٣") = 3`, and
`"²".isdigit()` is true while `int("²")` raises ValueError — so this
model (and the `int(part)` model `strToNat`) is faithful only on ASCII
parts.  Every part the frame theorem's safe documents make the rewriter
test is ASCII: `safeKeyStr` requires ASCII keys and index renderings are
decimal digits; the C3 counterexample is ASCII as well. -/
def isDigitStr (s : String) : Bool := !s.data.isEmpty && s.data.all Char.isDigit

/-- Python `int(part)` for an all-digit string. -/
def strToNat (s : String) : Nat := digitsToNat s.data

/-- The delimiters of `re.split(r"\.|\[|\]", path)`. -/
def isPathDelim (c : Char) : Bool :=
  c = Char.ofNat 46 ∨ c = Char.ofNat 91 ∨ c = Char.ofNat 93

def splitDelims : List Char → List (List Char)
  | [] => [[]]
  | x :: xs =>
    if isPathDelim x then [] :: splitDelims xs
    else
      match splitDelims xs with
      | [] => [[x]]
      | l :: ls => (x :: l) :: ls

/-- `parts = re.split(r"\.|\[|\]", path); parts = [p for p in parts if p]`
(lines 956-957). -/
def splitPath (path : String) : List String :=
  ((splitDelims path.data).map String.mk).filter (fun p => p ≠ "")

/-- Truthiness of `VAULT_URL_PATTERN.match(obj)` (line 934). -/
def vaultMatchB (s : String) : Bool := (vault_url_match s).isSome

mutual
/-- `find_vault_references` (lines 909-937): depth-first walk collecting
`(dotted/bracketed path, reference)` pairs.  Dict iteration order is
insertion order, so the source's `references.update(...)` accumulates in
exactly this list order (for the safe documents of the frame theorem the
paths are distinct, so the dict holds the same pairs). -/
def findRefs : PyVal → String → List (String × String)
  | .dict es, path => findRefsDict es path
  | .arr xs, path => findRefsArr xs 0 path
  | .str s, path => if vaultMatchB s then [(path, s)] else []
  | .other, _ => []
def findRefsDict : List (PyKey × PyVal) → String → List (String × String)
  | [], _ => []
  | (k, v) :: rest, path =>
    findRefs v (if path = "" then keyStr k else path ++ "." ++ keyStr k)
      ++ findRefsDict rest path
def findRefsArr : List PyVal → Nat → String → List (String × String)
  | [], _, _ => []
  | x :: rest, idx, path =>
    findRefs x (path ++ "[" ++ natRepr idx ++ "]") ++ findRefsArr rest (idx + 1) path
end

def find_vault_references (obj : PyVal) : List (String × String) := findRefs obj ""

/-- First entry with the given key (Python dict lookup; real dicts have no
duplicate keys). -/
def lookupKey (k : PyKey) : List (PyKey × PyVal) → Option PyVal
  | [] => none
  | (k2, v) :: rest => if k2 = k then some v else lookupKey k rest

/-- Python dict assignment `d[k] = v`: replace in place if the key exists,
else append (insertion order). -/
def insertKey (k : PyKey) (v : PyVal) : List (PyKey × PyVal) → List (PyKey × PyVal)
  | [] => [(k, v)]
  | (k2, v2) :: rest => if k2 = k then (k, v) :: rest else (k2, v2) :: insertKey k v rest

/-- The final `parts[-1]` assignment of `set_nested_value` (lines 972-978).
`none` models a raised exception: IndexError on a list index out of range,
TypeError on a string index into a list or any assignment into a scalar. -/
def setLast : PyVal → String → String → Option PyVal
  | .arr xs, last, value =>
    if isDigitStr last then
      if strToNat last < xs.length then some (.arr (xs.set (strToNat last) (.str value)))
      else none
    else none
  | .dict es, last, value =>
    if isDigitStr last then some (.dict (insertKey (.int (strToNat last)) (.str value) es))
    else some (.dict (insertKey (.str last) (.str value) es))
  | _, _, _ => none

/-- The descent loop of `set_nested_value` (lines 959-978) over the
non-empty filtered parts.  A digit part indexes a list (IndexError when
out of range) or reads an integer dict key (KeyError when absent); a
non-digit part reads or creates a string dict key, choosing list vs dict
for a created node by whether the next part is a digit; every other
combination raises in Python (`none` here).  An empty parts list raises
IndexError at `parts[-1]`. -/
def setParts : PyVal → List String → String → Option PyVal
  | _, [], _ => none
  | cur, [last], value => setLast cur last value
  | cur, part :: rest, value =>
    if isDigitStr part then
      match cur with
      | .arr xs =>
        if h : strToNat part < xs.length then
          match setParts (xs.get ⟨strToNat part, h⟩) rest value with
          | some newSub => some (.arr (xs.set (strToNat part) newSub))
          | none => none
        else none
      | .dict es =>
        match lookupKey (.int (strToNat part)) es with
        | some sub =>
          match setParts sub rest value with
          | some newSub => some (.dict (insertKey (.int (strToNat part)) newSub es))
          | none => none
        | none => none
      | _ => none
    else
      match cur with
      | .dict es =>
        match lookupKey (.str part) es with
        | some sub =>
          match setParts sub rest value with
          | some newSub => some (.dict (insertKey (.str part) newSub es))
          | none => none
        | none =>
          let child : PyVal := if isDigitStr (rest.headD "") then .arr [] else .dict []
          match setParts child rest value with
          | some newSub => some (.dict (insertKey (.str part) newSub es))
          | none => none
      | _ => none

/-- `set_nested_value` (lines 939-980) as its mutation effect on `obj`:
`some` of the post-call object, `none` when the source would raise.  For
the empty path the source returns `value` without touching `obj` (and
`resolve_config` ignores the return value), so the mutation effect is the
unchanged object. -/
def set_nested_value (obj : PyVal) (path : String) (value : String) : Option PyVal :=
  if path = "" then some obj
  else setParts obj (splitPath path) value

/-- The application loop of `resolve_config` (lines 1044-1052): write each
resolved value back at its located path; unresolved references (`ρ url =
none`) are skipped with an error log.  A rewriter exception propagates
(`none`). -/
def apply_resolved (doc : PyVal) (refs : List (String × String))
    (ρ : String → Option String) : Option PyVal :=
  match refs with
  | [] => some doc
  | (path, url) :: rest =>
    match ρ url with
    | some v =>
      match set_nested_value doc path v with
      | some doc2 => apply_resolved doc2 rest ρ
      | none => none
    | none => apply_resolved doc rest ρ

mutual
/-- Spec-side rewriter for the frame property (spec §8): replace exactly
the located scalar reference strings whose resolution is available; leave
all keys, nesting, ordering and non-reference values unchanged. -/
def rewriteRefs : PyVal → (String → Option String) → PyVal
  | .dict es, ρ => .dict (rewriteEntries es ρ)
  | .arr xs, ρ => .arr (rewriteList xs ρ)
  | .str s, ρ =>
    if vaultMatchB s then
      match ρ s with
      | some v => .str v
      | none => .str s
    else .str s
  | .other, _ => .other
def rewriteEntries : List (PyKey × PyVal) → (String → Option String) → List (PyKey × PyVal)
  | [], _ => []
  | (k, v) :: rest, ρ => (k, rewriteRefs v ρ) :: rewriteEntries rest ρ
def rewriteList : List PyVal → (String → Option String) → List PyVal
  | [], _ => []
  | x :: rest, ρ => rewriteRefs x ρ :: rewriteList rest ρ
end

/-- A dict key the path syntax can unambiguously carry: a non-empty ASCII
string without `.`, `[`, `]` that is not all digits (an all-digit key
would be re-parsed as an integer index).  Keys are restricted to ASCII
because Python classifies digits Unicode-wide: a key such as `"٣"`
satisfies `str.isdigit`, so `set_nested_value` would execute
`current[int(part)] = value` (an integer dict key, leaving the located
scalar unchanged), and a digit-but-not-decimal key such as `"²"` makes
`int()` raise; on ASCII keys the model's digit test `isDigitStr` agrees
with Python exactly. -/
def safeKeyStr (s : String) : Bool :=
  s ≠ "" && !(isDigitStr s)
    && s.data.all (fun c => c.toNat < 128 && !(isPathDelim c))

def nodupKeys : List (PyKey × PyVal) → Bool
  | [] => true
  | (k, _) :: rest => rest.all (fun kv => kv.1 ≠ k) && nodupKeys rest

def keyIsSafe : PyKey → Bool
  | .str s => safeKeyStr s
  | .int _ => false

mutual
/-- Documents whose locator paths are unambiguously re-applicable: every
dict key is a safe ASCII string and keys are duplicate-free at each
level. -/
def SafeDoc : PyVal → Bool
  | .dict es => nodupKeys es && SafeEntries es
  | .arr xs => SafeList xs
  | .str _ => true
  | .other => true
def SafeEntries : List (PyKey × PyVal) → Bool
  | [] => true
  | (k, v) :: rest => keyIsSafe k && SafeDoc v && SafeEntries rest
def SafeList : List PyVal → Bool
  | [] => true
  | x :: rest => SafeDoc x && SafeList rest
end

/-- Root shapes `resolve_config` actually rewrites (its `config` argument
is a dict; a list root also behaves; a scalar root is never mutated by
`set_nested_value`, which returns the value instead). -/
def rootContainer : PyVal → Bool
  | .dict _ => true
  | .arr _ => true
  | _ => false

mutual
/-- Parts-level view of the locator: the same located references with
their paths as step-string lists instead of rendered strings. -/
def locParts : PyVal → List (List String × String)
  | .dict es => locPartsDict es
  | .arr xs => locPartsArr xs 0
  | .str s => if vaultMatchB s then [([], s)] else []
  | .other => []
def locPartsDict : List (PyKey × PyVal) → List (List String × String)
  | [] => []
  | (k, v) :: rest =>
    (locParts v).map (fun pu => (keyStr k :: pu.1, pu.2)) ++ locPartsDict rest
def locPartsArr : List PyVal → Nat → List (List String × String)
  | [], _ => []
  | x :: rest, idx =>
    (locParts x).map (fun pu => (natRepr idx :: pu.1, pu.2)) ++ locPartsArr rest (idx + 1)
end

/-- One parts-level write: empty steps replace the current node (the
containing step of the parent already addressed it), non-empty steps
descend via `setParts`. -/
def applyStep (cur : PyVal) (q : List String) (v : String) : Option PyVal :=
  match q with
  | [] => some (.str v)
  | _ :: _ => setParts cur q v

def applySub (cur : PyVal) (refs : List (List String × String))
    (ρ : String → Option String) : Option PyVal :=
  match refs with
  | [] => some cur
  | (q, url) :: rest =>
    match ρ url with
    | some v =>
      match applyStep cur q v with
      | some cur2 => applySub cur2 rest ρ
      | none => none
    | none => applySub cur rest ρ

/-! ## Path rendering and re-splitting lemmas -/

theorem splitDelims_ne_nil (xs : List Char) : splitDelims xs ≠ [] := by
  induction xs with
  | nil => simp [splitDelims]
  | cons x xs ih =>
    rw [splitDelims]
    split
    · simp
    · match h : splitDelims xs with
      | [] => simp
      | l :: ls => simp

theorem splitDelims_append_delim (c : Char) (hc : isPathDelim c = true)
    (xs ys : List Char) :
    splitDelims (xs ++ c :: ys) = splitDelims xs ++ splitDelims ys := by
  induction xs with
  | nil => simp [splitDelims, hc]
  | cons x xs ih =>
    by_cases hx : isPathDelim x = true
    · simp [splitDelims, hx, ih]
    · simp only [List.cons_append, splitDelims, hx, if_false, Bool.false_eq_true,
        List.append_eq]
      rw [ih]
      cases h : splitDelims xs with
      | nil => exact absurd h (splitDelims_ne_nil xs)
      | cons l ls => simp

theorem splitDelims_no_delim (xs : List Char)
    (h : ∀ c ∈ xs, isPathDelim c = false) : splitDelims xs = [xs] := by
  induction xs with
  | nil => rfl
  | cons x xs ih =>
    rw [splitDelims]
    have hx := h x (by simp)
    rw [if_neg (by simp [hx]), ih (fun c hc => h c (by simp [hc]))]

theorem splitPath_empty : splitPath "" = [] := rfl

theorem mk_data (s : String) : String.mk s.data = s := rfl

theorem splitPath_ok (s : String) (hne : s ≠ "")
    (hnd : ∀ c ∈ s.data, isPathDelim c = false) : splitPath s = [s] := by
  rw [splitPath, splitDelims_no_delim s.data hnd]
  simp [mk_data, hne]

theorem splitPath_dot (p k : String) (hne : k ≠ "")
    (hnd : ∀ c ∈ k.data, isPathDelim c = false) :
    splitPath (p ++ "." ++ k) = splitPath p ++ [k] := by
  have hdata : (p ++ "." ++ k).data = p.data ++ Char.ofNat 46 :: k.data := by
    rw [String.data_append, String.data_append, List.append_assoc]
    rfl
  rw [splitPath, hdata,
    splitDelims_append_delim (Char.ofNat 46) (by decide) p.data k.data,
    splitDelims_no_delim k.data hnd]
  simp [splitPath, mk_data, hne]

theorem splitPath_brackets (p s : String) (hne : s ≠ "")
    (hnd : ∀ c ∈ s.data, isPathDelim c = false) :
    splitPath (p ++ "[" ++ s ++ "]") = splitPath p ++ [s] := by
  have hdata : (p ++ "[" ++ s ++ "]").data
      = p.data ++ Char.ofNat 91 :: (s.data ++ Char.ofNat 93 :: []) := by
    rw [String.data_append, String.data_append, String.data_append,
      List.append_assoc, List.append_assoc]
    rfl
  rw [splitPath, hdata,
    splitDelims_append_delim (Char.ofNat 91) (by decide) p.data _,
    splitDelims_append_delim (Char.ofNat 93) (by decide) s.data [],
    splitDelims_no_delim s.data hnd]
  simp [splitPath, mk_data, hne, splitDelims]

/-! ## Decimal rendering round trip -/

theorem digitCh_props (d : Nat) (hd : d < 10) :
    (digitCh d).isDigit = true ∧ (digitCh d).toNat = 48 + d
      ∧ isPathDelim (digitCh d) = false := by
  interval_cases d <;> refine ⟨by decide, by decide, by decide⟩

theorem isDigit_not_delim (c : Char) (h : c.isDigit = true) :
    isPathDelim c = false := by
  by_contra hc
  simp only [isPathDelim, Bool.not_eq_false, decide_eq_true_eq] at hc
  rcases hc with h1 | h1 | h1 <;> subst h1 <;> simp at h

theorem digitsToNat_append_one (l : List Char) (c : Char) :
    digitsToNat (l ++ [c]) = digitsToNat l * 10 + (c.toNat - 48) := by
  simp [digitsToNat, List.foldl_append]

theorem natDigitsAux_props (fuel : Nat) :
    ∀ n, n < fuel →
      digitsToNat (natDigitsAux fuel n) = n
      ∧ natDigitsAux fuel n ≠ []
      ∧ (∀ c ∈ natDigitsAux fuel n, c.isDigit = true) := by
  induction fuel with
  | zero => intro n h; omega
  | succ fuel ih =>
    intro n hn
    rw [natDigitsAux]
    by_cases h10 : n < 10
    · rw [if_pos h10]
      obtain ⟨hdig, htn, _⟩ := digitCh_props n h10
      refine ⟨?_, by simp, ?_⟩
      · simp [digitsToNat, htn]
      · intro c hc
        simp at hc
        rw [hc]
        exact hdig
    · rw [if_neg h10]
      have hrec : n / 10 < fuel := by
        have : n / 10 < n := Nat.div_lt_self (by omega) (by omega)
        omega
      obtain ⟨ih1, ih2, ih3⟩ := ih (n / 10) hrec
      obtain ⟨hdig, htn, _⟩ := digitCh_props (n % 10) (Nat.mod_lt n (by omega))
      refine ⟨?_, by simp, ?_⟩
      · rw [digitsToNat_append_one, ih1, htn]
        omega
      · intro c hc
        rcases List.mem_append.mp hc with h | h
        · exact ih3 c h
        · simp at h
          rw [h]
          exact hdig

theorem natRepr_props (n : Nat) :
    strToNat (natRepr n) = n
    ∧ isDigitStr (natRepr n) = true
    ∧ natRepr n ≠ ""
    ∧ (∀ c ∈ (natRepr n).data, isPathDelim c = false) := by
  obtain ⟨h1, h2, h3⟩ := natDigitsAux_props (n + 1) n (by omega)
  have hdata : (natRepr n).data = natDigitsAux (n + 1) n := rfl
  refine ⟨?_, ?_, ?_, ?_⟩
  · rw [strToNat, hdata, h1]
  · rw [isDigitStr, hdata]
    simp only [Bool.and_eq_true, Bool.not_eq_true']
    constructor
    · rw [List.isEmpty_eq_false_iff_exists_mem]
      match hm : natDigitsAux (n + 1) n with
      | [] => exact absurd hm h2
      | c :: l => exact ⟨c, by simp⟩
    · rw [List.all_eq_true]
      exact h3
  · intro h
    exact h2 (by rw [← hdata, h])
  · intro c hc
    exact isDigit_not_delim c (h3 c (hdata ▸ hc))

/-! ## Dict and list update lemmas -/

theorem lookupKey_insertKey (k : PyKey) (v : PyVal) (es : List (PyKey × PyVal)) :
    lookupKey k (insertKey k v es) = some v := by
  induction es with
  | nil => simp [insertKey, lookupKey]
  | cons e rest ih =>
    obtain ⟨k2, v2⟩ := e
    by_cases h : k2 = k
    · simp [insertKey, h, lookupKey]
    · simp [insertKey, h, lookupKey, ih]

theorem insertKey_insertKey (k : PyKey) (v1 v2 : PyVal) (es : List (PyKey × PyVal)) :
    insertKey k v2 (insertKey k v1 es) = insertKey k v2 es := by
  induction es with
  | nil => simp [insertKey]
  | cons e rest ih =>
    obtain ⟨k2, v2x⟩ := e
    by_cases h : k2 = k
    · simp [insertKey, h]
    · simp [insertKey, h, ih]

theorem insertKey_self (k : PyKey) (v : PyVal) (es : List (PyKey × PyVal))
    (h : lookupKey k es = some v) : insertKey k v es = es := by
  induction es with
  | nil => simp [lookupKey] at h
  | cons e rest ih =>
    obtain ⟨k2, v2⟩ := e
    by_cases hk : k2 = k
    · rw [lookupKey, if_pos hk] at h
      rw [insertKey, if_pos hk, hk]
      simp at h
      rw [h]
    · rw [lookupKey, if_neg hk] at h
      rw [insertKey, if_neg hk, ih h]

theorem lookupKey_append_skip (k : PyKey) (done es : List (PyKey × PyVal))
    (h : ∀ kv ∈ done, kv.1 ≠ k) :
    lookupKey k (done ++ es) = lookupKey k es := by
  induction done with
  | nil => rfl
  | cons e rest ih =>
    obtain ⟨k2, v2⟩ := e
    have : k2 ≠ k := h (k2, v2) (by simp)
    rw [List.cons_append, lookupKey, if_neg this]
    exact ih (fun kv hm => h kv (by simp [hm]))

theorem insertKey_append_skip (k : PyKey) (v : PyVal)
    (done es : List (PyKey × PyVal)) (h : ∀ kv ∈ done, kv.1 ≠ k) :
    insertKey k v (done ++ es) = done ++ insertKey k v es := by
  induction done with
  | nil => rfl
  | cons e rest ih =>
    obtain ⟨k2, v2⟩ := e
    have : k2 ≠ k := h (k2, v2) (by simp)
    rw [List.cons_append, insertKey, if_neg this, ih (fun kv hm => h kv (by simp [hm]))]
    rfl

theorem get?_append_len (done : List PyVal) (x : PyVal) (rest : List PyVal) :
    (done ++ x :: rest).get? done.length = some x := by
  induction done with
  | nil => rfl
  | cons d ds ih => simpa using ih

theorem set_append_len (done : List PyVal) (x y : PyVal) (rest : List PyVal) :
    (done ++ x :: rest).set done.length y = done ++ y :: rest := by
  induction done with
  | nil => rfl
  | cons d ds ih => simp [ih]

theorem set_get_self (xs : List PyVal) (i : Nat) (sub : PyVal)
    (h : xs.get? i = some sub) : xs.set i sub = xs := by
  induction xs generalizing i with
  | nil => simp [List.get?] at h
  | cons x rest ih =>
    cases i with
    | zero => simp [List.get?] at h; simp [List.set, h]
    | succ n =>
      simp only [List.get?] at h
      simp [List.set, ih n h]

/-! ## Descend lemmas for the parts-level rewriter -/

theorem applySub_append (cur : PyVal) (l1 l2 : List (List String × String))
    (ρ : String → Option String) :
    applySub cur (l1 ++ l2) ρ
      = match applySub cur l1 ρ with
        | some c2 => applySub c2 l2 ρ
        | none => none := by
  induction l1 generalizing cur with
  | nil => simp [applySub]
  | cons item rest ih =>
    obtain ⟨q, url⟩ := item
    rw [List.cons_append, applySub, applySub]
    cases hr : ρ url with
    | none => exact ih cur
    | some v =>
      simp only []
      cases hstep : applyStep cur q v with
      | none => rfl
      | some cur2 => exact ih cur2

/-- Writes prefixed with an existing safe dict key descend into that
entry. -/
theorem applySub_dict_descend (ρ : String → Option String) (k : String)
    (hk : isDigitStr k = false) (items : List (List String × String)) :
    ∀ (es0 : List (PyKey × PyVal)) (sub : PyVal),
    lookupKey (.str k) es0 = some sub →
    applySub (.dict es0) (items.map (fun pu => (k :: pu.1, pu.2))) ρ
      = (applySub sub items ρ).map (fun ns => .dict (insertKey (.str k) ns es0)) := by
  induction items with
  | nil =>
    intro es0 sub hl
    simp [applySub, insertKey_self _ _ _ hl]
  | cons item rest ih =>
    intro es0 sub hl
    obtain ⟨q, url⟩ := item
    rw [List.map_cons, applySub, applySub]
    cases ρ url with
    | none => exact ih es0 sub hl
    | some v =>
      simp only []
      cases q with
      | nil =>
        rw [show applyStep (.dict es0) [k] v
            = some (.dict (insertKey (.str k) (.str v) es0)) from by
          simp [applyStep, setParts, setLast, hk]]
        rw [show applyStep sub [] v = some (.str v) from rfl]
        simp only []
        rw [ih (insertKey (.str k) (.str v) es0) (.str v) (lookupKey_insertKey _ _ _)]
        cases applySub (.str v) rest ρ with
        | none => rfl
        | some ns => simp [insertKey_insertKey]
      | cons q0 qs =>
        rw [show applyStep (.dict es0) (k :: q0 :: qs) v
            = match setParts sub (q0 :: qs) v with
              | some newSub => some (.dict (insertKey (.str k) newSub es0))
              | none => none from by
          simp [applyStep, setParts, hk, hl]]
        rw [show applyStep sub (q0 :: qs) v = setParts sub (q0 :: qs) v from rfl]
        cases hs : setParts sub (q0 :: qs) v with
        | none => rfl
        | some newSub =>
          simp only []
          rw [ih (insertKey (.str k) newSub es0) newSub (lookupKey_insertKey _ _ _)]
          cases applySub newSub rest ρ with
          | none => rfl
          | some ns => simp [insertKey_insertKey]

/-- Writes prefixed with a decimal list index descend into that item. -/
theorem applySub_arr_descend (ρ : String → Option String) (i : Nat)
    (items : List (List String × String)) :
    ∀ (xs0 : List PyVal) (sub : PyVal),
    xs0.get? i = some sub →
    applySub (.arr xs0) (items.map (fun pu => (natRepr i :: pu.1, pu.2))) ρ
      = (applySub sub items ρ).map (fun ns => .arr (xs0.set i ns)) := by
  obtain ⟨hrt, hdig, hne, hnd⟩ := natRepr_props i
  induction items with
  | nil =>
    intro xs0 sub hg
    simp [applySub, set_get_self _ _ _ hg]
  | cons item rest ih =>
    intro xs0 sub hg
    obtain ⟨q, url⟩ := item
    have hlen : i < xs0.length := by
      by_contra hle
      rw [List.get?_eq_none.mpr (by omega)] at hg
      exact Option.noConfusion hg
    rw [List.map_cons, applySub, applySub]
    cases ρ url with
    | none => exact ih xs0 sub hg
    | some v =>
      simp only []
      cases q with
      | nil =>
        rw [show applyStep (.arr xs0) [natRepr i] v
            = some (.arr (xs0.set i (.str v))) from by
          simp [applyStep, setParts, setLast, hdig, hrt, hlen]]
        rw [show applyStep sub [] v = some (.str v) from rfl]
        simp only []
        rw [ih (xs0.set i (.str v)) (.str v)
          (by rw [List.get?_eq_getElem?]; exact List.getElem?_set_eq_of_lt _ (by simpa))]
        cases applySub (.str v) rest ρ with
        | none => rfl
        | some ns => simp [List.set_set]
      | cons q0 qs =>
        have hgelem : xs0.get ⟨i, hlen⟩ = sub := by
          have := List.get?_eq_get hlen
          rw [this] at hg
          exact Option.some.injEq _ _ ▸ hg.symm ▸ rfl
        rw [show applyStep (.arr xs0) (natRepr i :: q0 :: qs) v
            = match setParts sub (q0 :: qs) v with
              | some newSub => some (.arr (xs0.set i newSub))
              | none => none from by
          simp only [applyStep, setParts, hdig, if_true, hrt]
          rw [dif_pos hlen, hgelem]]
        rw [show applyStep sub (q0 :: qs) v = setParts sub (q0 :: qs) v from rfl]
        cases hs : setParts sub (q0 :: qs) v with
        | none => rfl
        | some newSub =>
          simp only []
          rw [ih (xs0.set i newSub) newSub
            (by rw [List.get?_eq_getElem?]; exact List.getElem?_set_eq_of_lt _ (by simpa))]
          cases applySub newSub rest ρ with
          | none => rfl
          | some ns => simp [List.set_set]

theorem safeKeyStr_spec (s : String) (h : safeKeyStr s = true) :
    s ≠ "" ∧ isDigitStr s = false ∧ (∀ c ∈ s.data, isPathDelim c = false)
      ∧ ∀ c ∈ s.data, c.toNat < 128 := by
  rw [safeKeyStr, Bool.and_eq_true, Bool.and_eq_true] at h
  obtain ⟨⟨h1, h2⟩, h3⟩ := h
  refine ⟨of_decide_eq_true h1, ?_, ?_, ?_⟩
  · cases hd : isDigitStr s with
    | false => rfl
    | true => rw [hd] at h2; simp at h2
  · intro c hc
    have hcc := List.all_eq_true.mp h3 c hc
    rw [Bool.and_eq_true] at hcc
    have := hcc.2
    cases hd : isPathDelim c with
    | false => rfl
    | true => rw [hd] at this; simp at this
  · intro c hc
    have hcc := List.all_eq_true.mp h3 c hc
    rw [Bool.and_eq_true] at hcc
    exact of_decide_eq_true hcc.1

theorem SafeEntries_cons (k : PyKey) (v : PyVal) (rest : List (PyKey × PyVal))
    (h : SafeEntries ((k, v) :: rest) = true) :
    keyIsSafe k = true ∧ SafeDoc v = true ∧ SafeEntries rest = true := by
  have he : SafeEntries ((k, v) :: rest)
      = (keyIsSafe k && SafeDoc v && SafeEntries rest) := rfl
  rw [he, Bool.and_eq_true, Bool.and_eq_true] at h
  exact ⟨h.1.1, h.1.2, h.2⟩

theorem SafeList_cons (x : PyVal) (rest : List PyVal)
    (h : SafeList (x :: rest) = true) :
    SafeDoc x = true ∧ SafeList rest = true := by
  have he : SafeList (x :: rest) = (SafeDoc x && SafeList rest) := rfl
  rw [he, Bool.and_eq_true] at h
  exact h

theorem nodupKeys_cons (k : PyKey) (v : PyVal) (rest : List (PyKey × PyVal))
    (h : nodupKeys ((k, v) :: rest) = true) :
    (∀ kv ∈ rest, kv.1 ≠ k) ∧ nodupKeys rest = true := by
  have he : nodupKeys ((k, v) :: rest)
      = (rest.all (fun kv => kv.1 ≠ k) && nodupKeys rest) := rfl
  rw [he, Bool.and_eq_true] at h
  refine ⟨fun kv hm => ?_, h.2⟩
  have := List.all_eq_true.mp h.1 kv hm
  exact of_decide_eq_true this

theorem SafeEntries_mem (es : List (PyKey × PyVal)) (hs : SafeEntries es = true)
    (k : PyKey) (v : PyVal) (hm : (k, v) ∈ es) : SafeDoc v = true := by
  induction es with
  | nil => simp at hm
  | cons e rest ih =>
    obtain ⟨k2, v2⟩ := e
    obtain ⟨_, hv, hrest⟩ := SafeEntries_cons k2 v2 rest hs
    rcases List.mem_cons.mp hm with h | h
    · cases h; exact hv
    · exact ih hrest h

theorem SafeList_mem (xs : List PyVal) (hs : SafeList xs = true)
    (x : PyVal) (hm : x ∈ xs) : SafeDoc x = true := by
  induction xs with
  | nil => simp at hm
  | cons y rest ih =>
    obtain ⟨hy, hrest⟩ := SafeList_cons y rest hs
    rcases List.mem_cons.mp hm with h | h
    · exact h ▸ hy
    · exact ih hrest h

/-- Rewriting all entries of a safe dict, one located group at a time. -/
theorem dict_fold (ρ : String → Option String) :
    ∀ (es done : List (PyKey × PyVal)),
    (∀ kv ∈ done, ∀ kv2 ∈ es, kv.1 ≠ kv2.1) →
    nodupKeys es = true →
    SafeEntries es = true →
    (∀ k v, (k, v) ∈ es → applySub v (locParts v) ρ = some (rewriteRefs v ρ)) →
    applySub (.dict (done ++ es)) (locPartsDict es) ρ
      = some (.dict (done ++ rewriteEntries es ρ)) := by
  intro es
  induction es with
  | nil =>
    intro done _ _ _ _
    show applySub (.dict (done ++ [])) (locPartsDict []) ρ = some (.dict (done ++ []))
    simp only [List.append_nil]
    rfl
  | cons e rest ih =>
    intro done hdisj hdup hsafe hih
    obtain ⟨k, v⟩ := e
    obtain ⟨hkey, hv, hrest⟩ := SafeEntries_cons k v rest hsafe
    have hks : ∃ s, k = .str s := by
      cases k with
      | str s => exact ⟨s, rfl⟩
      | int n => exact absurd hkey (by simp [keyIsSafe])
    obtain ⟨s, rfl⟩ := hks
    obtain ⟨hs1, hdig, hs3, _⟩ := safeKeyStr_spec s hkey
    rw [locPartsDict, applySub_append]
    have hlook : lookupKey (.str s) (done ++ (.str s, v) :: rest) = some v := by
      rw [lookupKey_append_skip (.str s) done _
        (fun kv hm => hdisj kv hm (.str s, v) (by simp))]
      simp [lookupKey]
    rw [show keyStr (.str s) = s from rfl]
    rw [applySub_dict_descend ρ s hdig (locParts v) _ v hlook]
    rw [hih (.str s) v (by simp)]
    simp only [Option.map_some']
    have hins : insertKey (.str s) (rewriteRefs v ρ) (done ++ (.str s, v) :: rest)
        = done ++ (.str s, rewriteRefs v ρ) :: rest := by
      rw [insertKey_append_skip (.str s) _ done _
        (fun kv hm => hdisj kv hm (.str s, v) (by simp))]
      simp [insertKey]
    rw [hins]
    have hdisj2 : ∀ kv ∈ done ++ [(PyKey.str s, rewriteRefs v ρ)],
        ∀ kv2 ∈ rest, kv.1 ≠ kv2.1 := by
      intro kv hm kv2 hm2
      rcases List.mem_append.mp hm with h | h
      · exact hdisj kv h kv2 (by simp [hm2])
      · simp at h
        rw [h]
        exact fun hc => absurd hc.symm ((nodupKeys_cons _ _ _ hdup).1 kv2 hm2)
    have := ih (done ++ [(PyKey.str s, rewriteRefs v ρ)]) hdisj2
      (nodupKeys_cons _ _ _ hdup).2
      hrest (fun k2 v2 hm => hih k2 v2 (by simp [hm]))
    rw [List.append_assoc] at this
    simp only [List.singleton_append] at this
    rw [this]
    simp [rewriteEntries]

/-- Rewriting all items of a safe list, one located group at a time. -/
theorem arr_fold (ρ : String → Option String) :
    ∀ (xs done : List PyVal),
    SafeList xs = true →
    (∀ x ∈ xs, applySub x (locParts x) ρ = some (rewriteRefs x ρ)) →
    applySub (.arr (done ++ xs)) (locPartsArr xs done.length) ρ
      = some (.arr (done ++ rewriteList xs ρ)) := by
  intro xs
  induction xs with
  | nil =>
    intro done _ _
    show applySub (.arr (done ++ [])) (locPartsArr [] done.length) ρ
      = some (.arr (done ++ []))
    simp only [List.append_nil]
    rfl
  | cons x rest ih =>
    intro done hsafe hih
    obtain ⟨hx, hrest⟩ := SafeList_cons x rest hsafe
    rw [locPartsArr, applySub_append]
    rw [applySub_arr_descend ρ done.length (locParts x) _ x (get?_append_len done x rest)]
    rw [hih x (by simp)]
    simp only [Option.map_some']
    rw [set_append_len done x (rewriteRefs x ρ) rest]
    have := ih (done ++ [rewriteRefs x ρ]) hrest (fun y hm => hih y (by simp [hm]))
    rw [List.append_assoc] at this
    simp only [List.singleton_append] at this
    rw [show (done ++ [rewriteRefs x ρ]).length = done.length + 1 by simp] at this
    rw [this]
    simp [rewriteList]

theorem sizeOf_pyval_pos (v : PyVal) : 0 < sizeOf v := by
  cases v <;> simp_arith

/-- Parts-level frame theorem: applying every located reference of a safe
document yields exactly the spec-side rewrite. -/
theorem applySub_locParts (n : Nat) : ∀ (sub : PyVal), sizeOf sub ≤ n →
    SafeDoc sub = true → ∀ ρ, applySub sub (locParts sub) ρ = some (rewriteRefs sub ρ) := by
  induction n with
  | zero =>
    intro sub h
    exact absurd h (by have := sizeOf_pyval_pos sub; omega)
  | succ n ih =>
    intro sub hsz hsafe ρ
    match sub with
    | .other => rfl
    | .str s =>
      rw [locParts, rewriteRefs]
      cases hm : vaultMatchB s with
      | false => simp [applySub]
      | true =>
        simp only [if_pos rfl]
        cases hr : ρ s with
        | none => simp [applySub, hr]
        | some v => simp [applySub, hr, applyStep]
    | .dict es =>
      have he : SafeDoc (PyVal.dict es) = (nodupKeys es && SafeEntries es) := rfl
      rw [he, Bool.and_eq_true] at hsafe
      rw [locParts, rewriteRefs]
      have := dict_fold ρ es [] (by simp) hsafe.1 hsafe.2
        (fun k v hm => by
          have hszv : sizeOf v ≤ n := by
            have h1 := List.sizeOf_lt_of_mem hm
            have h2 : sizeOf (PyVal.dict es) = 1 + sizeOf es := by simp_arith
            have h3 : sizeOf (k, v) = 1 + sizeOf k + sizeOf v := by simp_arith
            omega
          exact ih v hszv (SafeEntries_mem es hsafe.2 k v hm) ρ)
      simpa using this
    | .arr xs =>
      have he : SafeDoc (PyVal.arr xs) = SafeList xs := rfl
      rw [he] at hsafe
      rw [locParts, rewriteRefs]
      have := arr_fold ρ xs [] hsafe
        (fun x hm => by
          have hszx : sizeOf x ≤ n := by
            have h1 := List.sizeOf_lt_of_mem hm
            have h2 : sizeOf (PyVal.arr xs) = 1 + sizeOf xs := by simp_arith
            omega
          exact ih x hszx (SafeList_mem xs hsafe x hm) ρ)
      simpa using this

theorem findRefsDict_split :
    ∀ (es : List (PyKey × PyVal)), SafeEntries es = true →
    (∀ k v, (k, v) ∈ es → ∀ p,
      (findRefs v p).map (fun pu => (splitPath pu.1, pu.2))
        = (locParts v).map (fun pu => (splitPath p ++ pu.1, pu.2))) →
    ∀ p, (findRefsDict es p).map (fun pu => (splitPath pu.1, pu.2))
      = (locPartsDict es).map (fun pu => (splitPath p ++ pu.1, pu.2)) := by
  intro es
  induction es with
  | nil => intro _ _ p; rfl
  | cons e rest ihe =>
    intro hsafe ihm p
    obtain ⟨k, v⟩ := e
    obtain ⟨hkey, hv, hrest⟩ := SafeEntries_cons k v rest hsafe
    have hks : ∃ s, k = .str s := by
      cases k with
      | str s => exact ⟨s, rfl⟩
      | int n => exact absurd hkey (by simp [keyIsSafe])
    obtain ⟨s, rfl⟩ := hks
    obtain ⟨hs1, _, hs3, _⟩ := safeKeyStr_spec s hkey
    rw [findRefsDict, locPartsDict, List.map_append, List.map_append]
    have hsplit : splitPath (if p = "" then keyStr (.str s)
        else p ++ "." ++ keyStr (.str s)) = splitPath p ++ [s] := by
      by_cases hp : p = ""
      · rw [if_pos hp, hp, splitPath_empty]
        exact splitPath_ok s hs1 hs3
      · rw [if_neg hp]
        exact splitPath_dot p s hs1 hs3
    rw [ihm (.str s) v (by simp)
      (if p = "" then keyStr (.str s) else p ++ "." ++ keyStr (.str s)), hsplit]
    rw [ihe hrest (fun k2 v2 hm => ihm k2 v2 (by simp [hm])) p]
    congr 1
    rw [List.map_map]
    apply List.map_congr_left
    intro pu _
    simp [keyStr]

theorem findRefsArr_split :
    ∀ (xs : List PyVal), SafeList xs = true →
    (∀ y, y ∈ xs → ∀ p,
      (findRefs y p).map (fun pu => (splitPath pu.1, pu.2))
        = (locParts y).map (fun pu => (splitPath p ++ pu.1, pu.2))) →
    ∀ idx p, (findRefsArr xs idx p).map (fun pu => (splitPath pu.1, pu.2))
      = (locPartsArr xs idx).map (fun pu => (splitPath p ++ pu.1, pu.2)) := by
  intro xs
  induction xs with
  | nil => intro _ _ idx p; rfl
  | cons y rest ihy =>
    intro hsafe ihm idx p
    obtain ⟨hy, hrest⟩ := SafeList_cons y rest hsafe
    obtain ⟨_, _, hne, hnd⟩ := natRepr_props idx
    rw [findRefsArr, locPartsArr, List.map_append, List.map_append]
    rw [ihm y (by simp) (p ++ "[" ++ natRepr idx ++ "]")]
    rw [splitPath_brackets p (natRepr idx) hne hnd]
    rw [ihy hrest (fun y2 hm => ihm y2 (by simp [hm])) (idx + 1) p]
    congr 1
    rw [List.map_map]
    apply List.map_congr_left
    intro pu _
    simp

/-- Rendered locator paths re-split into exactly the step lists of the
parts-level locator, prefixed by the split of the ambient path prefix. -/
theorem findRefs_split (n : Nat) : ∀ (v : PyVal), sizeOf v ≤ n →
    SafeDoc v = true → ∀ p,
    (findRefs v p).map (fun pu => (splitPath pu.1, pu.2))
      = (locParts v).map (fun pu => (splitPath p ++ pu.1, pu.2)) := by
  induction n with
  | zero =>
    intro v h
    exact absurd h (by have := sizeOf_pyval_pos v; omega)
  | succ n ih =>
    intro v hsz hsafe p
    match v with
    | .other => rfl
    | .str s =>
      rw [findRefs, locParts]
      cases hm : vaultMatchB s <;> simp
    | .dict es =>
      have he : SafeDoc (PyVal.dict es) = (nodupKeys es && SafeEntries es) := rfl
      rw [he, Bool.and_eq_true] at hsafe
      rw [findRefs, locParts]
      refine findRefsDict_split es hsafe.2 (fun k2 v2 hm => ?_) p
      have hszv2 : sizeOf v2 ≤ n := by
        have h1 := List.sizeOf_lt_of_mem hm
        have h2 : sizeOf (PyVal.dict es) = 1 + sizeOf es := by simp_arith
        have h3 : sizeOf (k2, v2) = 1 + sizeOf k2 + sizeOf v2 := by simp_arith
        omega
      exact ih v2 hszv2 (SafeEntries_mem es hsafe.2 k2 v2 hm)
    | .arr xs =>
      have he : SafeDoc (PyVal.arr xs) = SafeList xs := rfl
      rw [he] at hsafe
      rw [findRefs, locParts]
      refine findRefsArr_split xs hsafe (fun y hm => ?_) 0 p
      have hszy : sizeOf y ≤ n := by
        have h1 := List.sizeOf_lt_of_mem hm
        have h2 : sizeOf (PyVal.arr xs) = 1 + sizeOf xs := by simp_arith
        omega
      exact ih y hszy (SafeList_mem xs hsafe y hm)

/-- String-path application agrees with parts-level application whenever
every path splits into at least one part. -/
theorem apply_resolved_applySub :
    ∀ (refs : List (String × String)) (D : PyVal) (ρ : String → Option String),
    (∀ pu ∈ refs, splitPath pu.1 ≠ []) →
    apply_resolved D refs ρ
      = applySub D (refs.map (fun pu => (splitPath pu.1, pu.2))) ρ := by
  intro refs
  induction refs with
  | nil => intro D ρ _; rfl
  | cons r rest ih =>
    intro D ρ hne
    obtain ⟨path, url⟩ := r
    rw [List.map_cons, apply_resolved, applySub]
    cases hr : ρ url with
    | none => exact ih D ρ (fun pu hm => hne pu (by simp [hm]))
    | some v =>
      simp only []
      have hpne : splitPath path ≠ [] := hne (path, url) (by simp)
      have hpath : path ≠ "" := by
        intro h
        rw [h, splitPath_empty] at hpne
        exact hpne rfl
      have hset : set_nested_value D path v = applyStep D (splitPath path) v := by
        rw [set_nested_value, if_neg hpath]
        match hsp : splitPath path with
        | [] => exact absurd hsp hpne
        | q0 :: qs => rfl
      rw [hset]
      cases hstep : applyStep D (splitPath path) v with
      | none => rfl
      | some D2 => exact ih D2 ρ (fun pu hm => hne pu (by simp [hm]))

theorem locPartsDict_nonempty (es : List (PyKey × PyVal)) :
    ∀ pu ∈ locPartsDict es, pu.1 ≠ [] := by
  induction es with
  | nil => intro pu hm; simp [locPartsDict] at hm
  | cons e rest ih =>
    obtain ⟨k, v⟩ := e
    intro pu hm
    rw [locPartsDict] at hm
    rcases List.mem_append.mp hm with h | h
    · obtain ⟨pu2, _, hpu⟩ := List.mem_map.mp h
      rw [← hpu]
      simp
    · exact ih pu h

theorem locPartsArr_nonempty (xs : List PyVal) :
    ∀ idx, ∀ pu ∈ locPartsArr xs idx, pu.1 ≠ [] := by
  induction xs with
  | nil => intro idx pu hm; simp [locPartsArr] at hm
  | cons x rest ih =>
    intro idx pu hm
    rw [locPartsArr] at hm
    rcases List.mem_append.mp hm with h | h
    · obtain ⟨pu2, _, hpu⟩ := List.mem_map.mp h
      rw [← hpu]
      simp
    · exact ih (idx + 1) pu h

theorem locParts_nonempty_of_container (D : PyVal) (h : rootContainer D = true) :
    ∀ pu ∈ locParts D, pu.1 ≠ [] := by
  match D with
  | .dict es => exact locPartsDict_nonempty es
  | .arr xs => exact locPartsArr_nonempty xs 0
  | .str _ => simp [rootContainer] at h
  | .other => simp [rootContainer] at h

/-- C3 (amended): for every document whose root is a map or sequence and
whose map keys are unambiguous ASCII path components (non-empty, free of
`.`, `[`, `]`, not all-digits — see `safeKeyStr` for why non-ASCII keys
are excluded — and duplicate-free per map), locating all references
and applying the resolved map back onto the document changes exactly the
scalar reference strings whose resolution is available — the result is the
spec-side structural rewrite, so all other keys, nesting, ordering and
non-reference values are unchanged and every emitted path is re-applied at
the location it was found at. -/
theorem c3_locate_apply_frame (D : PyVal) (ρ : String → Option String)
    (hs : SafeDoc D = true) (hroot : rootContainer D = true) :
    apply_resolved D (find_vault_references D) ρ = some (rewriteRefs D ρ) := by
  have hren2 : (find_vault_references D).map (fun pu => (splitPath pu.1, pu.2))
      = locParts D := by
    rw [find_vault_references, findRefs_split (sizeOf D) D le_rfl hs "", splitPath_empty]
    simp
  have hne : ∀ pu ∈ find_vault_references D, splitPath pu.1 ≠ [] := by
    intro pu hm
    have : (splitPath pu.1, pu.2) ∈ locParts D := by
      rw [← hren2]
      exact List.mem_map_of_mem _ hm
    exact locParts_nonempty_of_container D hroot _ this
  rw [apply_resolved_applySub _ D ρ hne, hren2]
  exact applySub_locParts (sizeOf D) D le_rfl hs ρ

/-- Witness for C3: a nested safe document with two references, one inside
a list; applying the locator output rewrites exactly those two scalars. -/
theorem c3_locate_apply_frame_witness :
    apply_resolved
      (.dict [(.str "servers", .dict [(.str "db", .dict [(.str "env",
        .dict [(.str "PASSWORD", .str "oci-vault://ocid1.vaultsecret.p"),
               (.str "PORT", .other)])])]),
              (.str "list", .arr [.str "oci-vault://ocid1.vaultsecret.q", .other])])
      (find_vault_references
        (.dict [(.str "servers", .dict [(.str "db", .dict [(.str "env",
          .dict [(.str "PASSWORD", .str "oci-vault://ocid1.vaultsecret.p"),
                 (.str "PORT", .other)])])]),
                (.str "list", .arr [.str "oci-vault://ocid1.vaultsecret.q", .other])]))
      (fun u => if u = "oci-vault://ocid1.vaultsecret.p" then some "pw" else some "qv")
      = some (.dict [(.str "servers", .dict [(.str "db", .dict [(.str "env",
          .dict [(.str "PASSWORD", .str "pw"),
                 (.str "PORT", .other)])])]),
                (.str "list", .arr [.str "qv", .other])]) := by
  have h := c3_locate_apply_frame
    (.dict [(.str "servers", .dict [(.str "db", .dict [(.str "env",
      .dict [(.str "PASSWORD", .str "oci-vault://ocid1.vaultsecret.p"),
             (.str "PORT", .other)])])]),
            (.str "list", .arr [.str "oci-vault://ocid1.vaultsecret.q", .other])])
    (fun u => if u = "oci-vault://ocid1.vaultsecret.p" then some "pw" else some "qv")
    (by decide) (by decide)
  rw [h]
  rfl

/-- C3 counterexample: the claim quantifies over every tree-shaped
document, but a map key containing a dot defeats the path encoding.  For
`{"a.b": "oci-vault://ocid1.vaultsecret.x"}` the locator emits the path
`"a.b"`; re-applying it creates a fresh nested entry `"a": {"b": "v"}`
while leaving the located reference scalar unchanged — the structure
changes and the located value does not, unlike the spec-side rewrite. -/
theorem c3_ambiguous_key_counterexample :
    find_vault_references (.dict [(.str "a.b", .str "oci-vault://ocid1.vaultsecret.x")])
      = [("a.b", "oci-vault://ocid1.vaultsecret.x")]
    ∧ apply_resolved (.dict [(.str "a.b", .str "oci-vault://ocid1.vaultsecret.x")])
        [("a.b", "oci-vault://ocid1.vaultsecret.x")] (fun _ => some "v")
      = some (.dict [(.str "a.b", .str "oci-vault://ocid1.vaultsecret.x"),
                     (.str "a", .dict [(.str "b", .str "v")])])
    ∧ rewriteRefs (.dict [(.str "a.b", .str "oci-vault://ocid1.vaultsecret.x")])
        (fun _ => some "v")
      = .dict [(.str "a.b", .str "v")]
    ∧ apply_resolved (.dict [(.str "a.b", .str "oci-vault://ocid1.vaultsecret.x")])
        (find_vault_references
          (.dict [(.str "a.b", .str "oci-vault://ocid1.vaultsecret.x")]))
        (fun _ => some "v")
      ≠ some (rewriteRefs (.dict [(.str "a.b", .str "oci-vault://ocid1.vaultsecret.x")])
          (fun _ => some "v")) := by
  refine ⟨rfl, rfl, rfl, ?_⟩
  intro h
  rw [show apply_resolved (.dict [(.str "a.b", .str "oci-vault://ocid1.vaultsecret.x")])
      (find_vault_references
        (.dict [(.str "a.b", .str "oci-vault://ocid1.vaultsecret.x")]))
      (fun _ => some "v")
    = some (.dict [(.str "a.b", .str "oci-vault://ocid1.vaultsecret.x"),
                   (.str "a", .dict [(.str "b", .str "v")])]) from rfl] at h
  rw [show rewriteRefs (.dict [(.str "a.b", .str "oci-vault://ocid1.vaultsecret.x")])
      (fun _ => some "v") = .dict [(.str "a.b", .str "v")] from rfl] at h
  injection h with h1
  injection h1 with h2
  simp at h2

end OciVault
